import Mathlib

/-! Lorenz attractor explorer and animator (`hw1.c`).

A shallow embedding of the integrator loops of `display`, of the keyboard
handlers `special` and `key`, and of the idle callback `idle`, followed by the
properties established about them.

Conventions of the embedding:

* `double` and `float` values are modelled in exact arithmetic, as elements of
  an arbitrary field `α` (ordered and with a floor function where the code
  converts to `int`).  All definitions are computable for `α = ℚ`.
* `sin` comes from the C math library; it is passed to `display` as a
  parameter, so that the real sine can be supplied where a property needs it.
* `int` values are modelled as `Int`.  The program keeps `th`, `ph` and
  `a_index` far away from the 32-bit range, so no wrap-around is modelled.
* The value returned by `glutGet(GLUT_ELAPSED_TIME)` is an input of the
  handlers that read it (`key` and `idle`).
-/

namespace Hw1

/-! ## Data model -/

/-- The global variables of `hw1.c` that the handlers read or write. -/
structure Globals (α : Type) where
  th : Int
  ph : Int
  color_frequency : α
  a_mode : Int
  a_index : Int
  t_offset : α
  s : α
  b : α
  r : α
deriving DecidableEq, Repr

/-- What one `glColor3f` / `glVertex3d` pair of the point batch hands to
OpenGL: the vertex position and the colour that is current when it is sent. -/
structure Vertex (α : Type) where
  pos : α × α × α
  col : α × α × α
deriving DecidableEq, Repr

section Field

variable {α : Type} [Field α]

/-- The initial values of the globals, as written in their declarations. -/
def initGlobals : Globals α :=
  { th := 0, ph := 0, color_frequency := 0.0100, a_mode := 0, a_index := 0,
    t_offset := 0, s := 10, b := 2.6666, r := 28 }

/-! ## The two integration loops of `display` -/

/-- The `for (i=0;i<50000;i++)` loop of the Explorer branch of `display`,
entered with loop counter `i` and current point `x y z`. -/
def explorerLoop (sin : α → α) (g : Globals α) (i : Int) (x y z : α) :
    List (Vertex α) :=
  if i < 50000 then
    let dt : α := 0.001
    let dx := g.s * (y - x)
    let dy := x * (g.r - z) - y
    let dz := x * y - g.b * z
    let x := x + dt * dx
    let y := y + dt * dy
    let z := z + dt * dz
    { pos := (x / 50, y / 50, z / 50),
      col := ((sin ((i : α) * g.color_frequency + 2) * 127 + 128) / 255,
              (sin ((i : α) * g.color_frequency + 4) * 127 + 128) / 255,
              (sin ((i : α) * g.color_frequency) * 127 + 128) / 255) }
      :: explorerLoop sin g (i + 1) x y z
  else []
termination_by (50000 - i).toNat
decreasing_by omega

/-- The `for (i=0;i<a_index;i++)` loop of the Animation branch of `display`,
entered with loop counter `i` and current point `x y z`. -/
def animationLoop (sin : α → α) (g : Globals α) (i : Int) (x y z : α) :
    List (Vertex α) :=
  if i < g.a_index then
    let dt : α := 0.001
    let dx := g.s * (y - x)
    let dy := x * (g.r - z) - y
    let dz := x * y - g.b * z
    let x := x + dt * dx
    let y := y + dt * dy
    let z := z + dt * dz
    { pos := (x / 50, y / 50, z / 50),
      col := ((sin ((i : α) * g.color_frequency + 2) * 127 + 128) / 255,
              (sin ((i : α) * g.color_frequency + 4) * 127 + 128) / 255,
              (sin ((i : α) * g.color_frequency) * 127 + 128) / 255) }
      :: animationLoop sin g (i + 1) x y z
  else []
termination_by (g.a_index - i).toNat
decreasing_by omega

/-- The point batch drawn by `display`: the vertices sent between the first
`glBegin(GL_POINTS)` and `glEnd()`, in order.  The axes, their labels and the
text overlay that `display` draws afterwards are not part of it. -/
def display (sin : α → α) (g : Globals α) : List (Vertex α) :=
  if g.a_mode = 0 then explorerLoop sin g 0 1 1 1
  else animationLoop sin g 0 1 1 1

/-- Number of points `display` is asked to draw: 50000 in Explorer mode, the
animation cursor in Animation mode. -/
def pointsToRender (g : Globals α) : Int :=
  if g.a_mode = 0 then 50000 else g.a_index

/-! ## The integrator as the specification words it -/

/-- One forward Euler step of the Lorenz system with `dt = 0.001`, all three
derivatives taken at the point before the step. -/
def eulerStep (s b r : α) (p : α × α × α) : α × α × α :=
  (p.1 + 0.001 * s * (p.2.1 - p.1),
   p.2.1 + 0.001 * (p.1 * (r - p.2.2) - p.2.1),
   p.2.2 + 0.001 * (p.1 * p.2.1 - b * p.2.2))

/-- The fixed scale-down of a trajectory point by 50. -/
def scaleDown (p : α × α × α) : α × α × α :=
  (p.1 / 50, p.2.1 / 50, p.2.2 / 50)

/-- The palette colour of step `i` at colour frequency `f`. -/
def paletteColour (sin : α → α) (f : α) (i : Int) : α × α × α :=
  ((sin ((i : α) * f + 2) * 127 + 128) / 255,
   (sin ((i : α) * f + 4) * 127 + 128) / 255,
   (sin ((i : α) * f) * 127 + 128) / 255)

/-- The trajectory point with index `j` of a run that starts the loop counter
at `i` and the integration at `p`. -/
def trajectoryPoint (sin : α → α) (g : Globals α) (i : Int) (p : α × α × α)
    (j : Nat) : Vertex α :=
  { pos := scaleDown ((eulerStep g.s g.b g.r)^[j + 1] p),
    col := paletteColour sin g.color_frequency (i + j) }

end Field

/-! ## Keyboard handlers -/

/-- GLUT code of the left arrow key (constant of the GLUT header). -/
def GLUT_KEY_LEFT : Int := 100

/-- GLUT code of the up arrow key (constant of the GLUT header). -/
def GLUT_KEY_UP : Int := 101

/-- GLUT code of the right arrow key (constant of the GLUT header). -/
def GLUT_KEY_RIGHT : Int := 102

/-- GLUT code of the down arrow key (constant of the GLUT header). -/
def GLUT_KEY_DOWN : Int := 103

/-- The handler `special(key, x, y)`.  C's `%` on `int` truncates towards
zero, which is `Int.tmod`. -/
def special {α : Type} (key _x _y : Int) (g : Globals α) : Globals α :=
  let g :=
    if key = GLUT_KEY_RIGHT then { g with th := g.th + 5 }
    else if key = GLUT_KEY_LEFT then { g with th := g.th - 5 }
    else if key = GLUT_KEY_UP then { g with ph := g.ph + 5 }
    else if key = GLUT_KEY_DOWN then { g with ph := g.ph - 5 }
    else g
  let g := { g with th := g.th.tmod 360 }
  { g with ph := g.ph.tmod 360 }

section Field

variable {α : Type} [Field α]

/-- The handler `key(ch, x, y)`; `now` is the value `glutGet(GLUT_ELAPSED_TIME)`
returns when the handler runs (only the `'2'` branch reads it).  The result is
`none` when the handler calls `exit(0)`. -/
def key (ch : Char) (_x _y : Int) (now : Int) (g : Globals α) :
    Option (Globals α) :=
  if ch = Char.ofNat 27 then none
  else if ch = 'q' then some { g with s := g.s + 1 }
  else if ch = 'a' then some { g with s := g.s - 1 }
  else if ch = 'w' then some { g with b := g.b + 0.3333 }
  else if ch = 's' then some { g with b := g.b - 0.3333 }
  else if ch = 'e' then some { g with r := g.r + 1 }
  else if ch = 'd' then some { g with r := g.r - 1 }
  else if ch = 'z' then some { g with color_frequency := g.color_frequency - 0.0001 }
  else if ch = 'x' then some { g with color_frequency := g.color_frequency + 0.0001 }
  else if ch = '1' then some { g with a_index := 0, a_mode := 0 }
  else if ch = '2' then
    some { g with a_mode := 1, a_index := 0, t_offset := (now : α) / 1.06 }
  else if ch = '0' then some { g with th := 0, ph := 0 }
  else if ch = '8' then some { g with color_frequency := 0.0100 }
  else if ch = '9' then some { g with s := 10, b := 2.6666, r := 28 }
  else some g

end Field

/-! ## The idle callback -/

section Ordered

variable {α : Type} [LinearOrderedField α] [FloorRing α]

/-- The C conversion `(int)tm` of a `double`: the fractional part is
discarded (truncation towards zero). -/
def truncToInt (tm : α) : Int :=
  if 0 ≤ tm then ⌊tm⌋ else ⌈tm⌉

/-- The callback `idle()`; `now` is the value `glutGet(GLUT_ELAPSED_TIME)`
returns when it runs. -/
def idle (now : Int) (g : Globals α) : Globals α :=
  let tm : α := (now : α) / 1.06 - g.t_offset
  let g := if g.a_index < 50000 then { g with a_index := truncToInt tm } else g
  if g.a_index > 50000 then { g with a_index := 50000 } else g

/-! ## Event sequences -/

/-- The callbacks GLUT dispatches that write the globals. -/
inductive Event where
  | key (ch : Char) (x y : Int)
  | special (key x y : Int)
  | idle
deriving DecidableEq, Repr

/-- Run the handler of one event; `now` is the elapsed-time clock reading at
the moment the event is dispatched. -/
def handle (g : Globals α) (now : Int) : Event → Option (Globals α)
  | .key ch x y => key ch x y now g
  | .special k x y => some (special k x y g)
  | .idle => some (idle now g)

/-- Run a sequence of events, each paired with the clock reading at its
dispatch; `none` when the program exits on the way. -/
def run (g : Globals α) : List (Int × Event) → Option (Globals α)
  | [] => some g
  | (now, e) :: es => (handle g now e).bind fun g' => run g' es

/-- The clock readings of an event sequence start at or after `t0` and never
decrease. -/
def ClockOk (t0 : Int) (es : List (Int × Event)) : Prop :=
  List.Chain (· ≤ ·) t0 (es.map Prod.fst)

instance (t0 : Int) (es : List (Int × Event)) : Decidable (ClockOk t0 es) :=
  inferInstanceAs (Decidable (List.Chain (· ≤ ·) t0 (es.map Prod.fst)))

end Ordered

/-! ## The cursor invariant -/

section Ordered

variable {α : Type} [LinearOrderedField α] [FloorRing α]

/-- Invariant of the animation cursor relative to the latest clock reading
`last`: the cursor lies in `[0, 50000]` and does not run ahead of the rescaled
time elapsed since `t_offset`. -/
def CursorInv (last : Int) (g : Globals α) : Prop :=
  0 ≤ g.a_index ∧ g.a_index ≤ 50000 ∧
    (g.a_index : α) ≤ (last : α) / 1.06 - g.t_offset

instance (last : Int) (g : Globals α) : Decidable (CursorInv last g) :=
  inferInstanceAs (Decidable (0 ≤ g.a_index ∧ g.a_index ≤ 50000 ∧
    (g.a_index : α) ≤ (last : α) / 1.06 - g.t_offset))

end Ordered

/-! ## Decimal rounding, as used for the quoted colour values -/

/-- Round `x` to `d` decimal places (to nearest). -/
noncomputable def roundDec (d : Nat) (x : ℝ) : ℝ :=
  (round (x * 10 ^ d) : ℝ) / 10 ^ d

/-! ## Unrolling the two loops -/

section Field

variable {α : Type} [Field α]

theorem trajectoryPoint_succ (sin : α → α) (g : Globals α) (i : Int)
    (p : α × α × α) (j : Nat) :
    trajectoryPoint sin g i p (j + 1)
      = trajectoryPoint sin g (i + 1) (eulerStep g.s g.b g.r p) j := by
  simp only [trajectoryPoint, Function.iterate_succ_apply]
  congr 2
  push_cast
  ring

theorem explorerLoop_unroll (sin : α → α) (g : Globals α) :
    ∀ (k : Nat) (i : Int) (x y z : α), (50000 - i).toNat = k →
      explorerLoop sin g i x y z
        = (List.range k).map (trajectoryPoint sin g i (x, y, z)) := by
  intro k
  induction k with
  | zero =>
    intro i x y z hk
    rw [explorerLoop, if_neg (by omega)]
    rfl
  | succ k ih =>
    intro i x y z hk
    rw [explorerLoop, if_pos (by omega)]
    simp only
    rw [ih (i + 1) _ _ _ (by omega), List.range_succ_eq_map, List.map_cons,
      List.map_map]
    congr 1
    · simp [trajectoryPoint, eulerStep, scaleDown, paletteColour, mul_assoc]
    · apply List.map_congr_left
      intro j _
      simp only [Function.comp_apply, Nat.succ_eq_add_one]
      rw [trajectoryPoint_succ]
      simp [eulerStep, mul_assoc]

theorem animationLoop_unroll (sin : α → α) (g : Globals α) :
    ∀ (k : Nat) (i : Int) (x y z : α), (g.a_index - i).toNat = k →
      animationLoop sin g i x y z
        = (List.range k).map (trajectoryPoint sin g i (x, y, z)) := by
  intro k
  induction k with
  | zero =>
    intro i x y z hk
    rw [animationLoop, if_neg (by omega)]
    rfl
  | succ k ih =>
    intro i x y z hk
    rw [animationLoop, if_pos (by omega)]
    simp only
    rw [ih (i + 1) _ _ _ (by omega), List.range_succ_eq_map, List.map_cons,
      List.map_map]
    congr 1
    · simp [trajectoryPoint, eulerStep, scaleDown, paletteColour, mul_assoc]
    · apply List.map_congr_left
      intro j _
      simp only [Function.comp_apply, Nat.succ_eq_add_one]
      rw [trajectoryPoint_succ]
      simp [eulerStep, mul_assoc]

/-- The point batch of `display` is the list of the first `pointsToRender`
trajectory points. -/
theorem display_eq_map (sin : α → α) (g : Globals α) :
    display sin g
      = (List.range (pointsToRender g).toNat).map
          (trajectoryPoint sin g 0 (1, 1, 1)) := by
  unfold display pointsToRender
  split
  · rw [explorerLoop_unroll sin g _ 0 1 1 1 rfl]
    rfl
  · rw [animationLoop_unroll sin g _ 0 1 1 1 rfl]
    simp

end Field

/-! ## Properties of the integrator -/

/-- C1: for every `s`, `b`, `r` and every index `i` below the point count, the
`i`-th position in the point batch of `display` is `(x/50, y/50, z/50)` for
`(x, y, z)` the `(i+1)`-fold iterate, from `(1,1,1)`, of the forward Euler step
with `dt = 0.001`; and for `s = 10`, `b = 2.6666`, `r = 28` the first position
is exactly `(0.02, 0.02052, 0.019966668)`. -/
theorem display_position_euler_iterate :
    (∀ (α : Type) [Field α] (sin : α → α) (g : Globals α) (i : Nat),
        (i : Int) < pointsToRender g →
        ((display sin g)[i]?).map Vertex.pos
          = some (scaleDown ((eulerStep g.s g.b g.r)^[i + 1] (1, 1, 1))))
    ∧ (∀ (sin : ℚ → ℚ) (g : Globals ℚ),
        0 < pointsToRender g → g.s = 10 → g.b = 2.6666 → g.r = 28 →
        ((display sin g)[0]?).map Vertex.pos
          = some ((0.02, 0.02052, 0.019966668) : ℚ × ℚ × ℚ)) := by
  have key : ∀ (α : Type) [Field α] (sin : α → α) (g : Globals α) (i : Nat),
      (i : Int) < pointsToRender g →
      ((display sin g)[i]?).map Vertex.pos
        = some (scaleDown ((eulerStep g.s g.b g.r)^[i + 1] (1, 1, 1))) := by
    intro α _ sin g i hi
    have hlt : i < (pointsToRender g).toNat := by omega
    rw [display_eq_map, List.getElem?_map, List.getElem?_range hlt]
    rfl
  refine ⟨key, ?_⟩
  intro sin g hpos hs hb hr
  rw [key ℚ sin g 0 (by exact_mod_cast hpos), hs, hb, hr]
  norm_num [eulerStep, scaleDown]

/-- Instance of C1: the second position drawn from the initial globals. -/
theorem display_position_euler_iterate_witness :
    ((display (fun _ => 0) (initGlobals : Globals ℚ))[1]?).map Vertex.pos
      = some (scaleDown ((eulerStep (initGlobals : Globals ℚ).s
          (initGlobals : Globals ℚ).b (initGlobals : Globals ℚ).r)^[1 + 1]
          (1, 1, 1))) :=
  display_position_euler_iterate.1 ℚ (fun _ => 0) initGlobals 1 (by decide)

/-- C2: in Animation mode, for every point count `N ≥ 0` the point batch drawn
with cursor `N` has length `N` (it is empty for `N = 0`) and is an initial
segment of the batch drawn with cursor `N + 1` for the same parameters. -/
theorem display_count_and_initial_segment {α : Type} [Field α] (sin : α → α)
    (g : Globals α) (N : Nat) (hmode : g.a_mode ≠ 0) :
    (display sin { g with a_index := (N : Int) }).length = N
    ∧ display sin { g with a_index := 0 } = []
    ∧ display sin { g with a_index := (N : Int) }
        <+: display sin { g with a_index := (N : Int) + 1 } := by
  have hp : ∀ c : Int, pointsToRender { g with a_index := c } = c := by
    intro c
    simp [pointsToRender, hmode]
  have ht : ∀ c : Int, trajectoryPoint sin { g with a_index := c } 0 (1, 1, 1)
      = trajectoryPoint sin g 0 (1, 1, 1) := by
    intro c
    rfl
  refine ⟨?_, ?_, ?_⟩
  · rw [display_eq_map, hp]
    simp
  · rw [display_eq_map, hp]
    rfl
  · rw [display_eq_map, display_eq_map, hp, hp, ht, ht]
    have h1 : ((N : Int) + 1).toNat = N + 1 := by omega
    rw [h1, Int.toNat_ofNat, List.range_succ, List.map_append]
    exact ⟨_, rfl⟩

/-- Instance of C2: cursor 2 against cursor 3 with the initial parameters. -/
theorem display_count_and_initial_segment_witness :
    (display (fun _ => 0)
        { ({ (initGlobals : Globals ℚ) with a_mode := 1 } : Globals ℚ) with
          a_index := ((2 : Nat) : Int) }).length = 2
    ∧ display (fun _ => 0)
        { ({ (initGlobals : Globals ℚ) with a_mode := 1 } : Globals ℚ) with
          a_index := 0 } = []
    ∧ display (fun _ => 0)
        { ({ (initGlobals : Globals ℚ) with a_mode := 1 } : Globals ℚ) with
          a_index := ((2 : Nat) : Int) }
      <+: display (fun _ => 0)
        { ({ (initGlobals : Globals ℚ) with a_mode := 1 } : Globals ℚ) with
          a_index := ((2 : Nat) : Int) + 1 } :=
  display_count_and_initial_segment (fun _ => 0)
    { (initGlobals : Globals ℚ) with a_mode := 1 } 2 (by decide)

/-- C3: for every `s`, `b`, `r` and colour frequency, the point batch `display`
draws in Animation mode with cursor `a_index = 50000` equals the batch it draws
in Explorer mode with the same parameters. -/
theorem display_finished_animation_eq_explorer {α : Type} [Field α]
    (sin : α → α) (ga ge : Globals α)
    (hanim : ga.a_mode ≠ 0) (hdone : ga.a_index = 50000) (hexp : ge.a_mode = 0)
    (hs : ga.s = ge.s) (hb : ga.b = ge.b) (hr : ga.r = ge.r)
    (hf : ga.color_frequency = ge.color_frequency) :
    display sin ga = display sin ge := by
  have hloops : animationLoop sin ga 0 1 1 1 = explorerLoop sin ge 0 1 1 1 := by
    rw [animationLoop_unroll sin ga 50000 0 1 1 1 (by rw [hdone]; rfl),
      explorerLoop_unroll sin ge 50000 0 1 1 1 rfl]
    apply List.map_congr_left
    intro j _
    simp only [trajectoryPoint, hs, hb, hr, hf]
  unfold display
  rw [if_neg hanim, if_pos hexp, hloops]

/-- Instance of C3: the initial parameters, finished animation against
Explorer mode. -/
theorem display_finished_animation_eq_explorer_witness :
    display (fun _ => 0)
        ({ (initGlobals : Globals ℚ) with a_mode := 1, a_index := 50000 })
      = display (fun _ => 0) (initGlobals : Globals ℚ) :=
  display_finished_animation_eq_explorer (fun _ => 0)
    { (initGlobals : Globals ℚ) with a_mode := 1, a_index := 50000 }
    initGlobals (by decide) rfl rfl rfl rfl rfl rfl

/-! ## The animation cursor -/

/-- What a `key` command that does not exit can do to the cursor and to
`t_offset`. -/
theorem key_cursor_cases {α : Type} [Field α] {now : Int} {g g' : Globals α} (ch : Char) (x y : Int)
    (hk : key ch x y now g = some g') :
    (g'.a_index = g.a_index ∨ g'.a_index = 0) ∧
      (g'.t_offset = g.t_offset ∨ (g'.a_index = 0 ∧ g'.t_offset = (now : α) / 1.06)) := by
  unfold Hw1.key at hk
  by_cases h : ch = Char.ofNat 27
  · rw [if_pos h] at hk
    exact Option.noConfusion hk
  rw [if_neg h] at hk
  clear h
  by_cases h : ch = 'q'
  · rw [if_pos h] at hk
    cases hk
    exact ⟨Or.inl rfl, Or.inl rfl⟩
  rw [if_neg h] at hk
  clear h
  by_cases h : ch = 'a'
  · rw [if_pos h] at hk
    cases hk
    exact ⟨Or.inl rfl, Or.inl rfl⟩
  rw [if_neg h] at hk
  clear h
  by_cases h : ch = 'w'
  · rw [if_pos h] at hk
    cases hk
    exact ⟨Or.inl rfl, Or.inl rfl⟩
  rw [if_neg h] at hk
  clear h
  by_cases h : ch = 's'
  · rw [if_pos h] at hk
    cases hk
    exact ⟨Or.inl rfl, Or.inl rfl⟩
  rw [if_neg h] at hk
  clear h
  by_cases h : ch = 'e'
  · rw [if_pos h] at hk
    cases hk
    exact ⟨Or.inl rfl, Or.inl rfl⟩
  rw [if_neg h] at hk
  clear h
  by_cases h : ch = 'd'
  · rw [if_pos h] at hk
    cases hk
    exact ⟨Or.inl rfl, Or.inl rfl⟩
  rw [if_neg h] at hk
  clear h
  by_cases h : ch = 'z'
  · rw [if_pos h] at hk
    cases hk
    exact ⟨Or.inl rfl, Or.inl rfl⟩
  rw [if_neg h] at hk
  clear h
  by_cases h : ch = 'x'
  · rw [if_pos h] at hk
    cases hk
    exact ⟨Or.inl rfl, Or.inl rfl⟩
  rw [if_neg h] at hk
  clear h
  by_cases h : ch = '1'
  · rw [if_pos h] at hk
    cases hk
    exact ⟨Or.inr rfl, Or.inl rfl⟩
  rw [if_neg h] at hk
  clear h
  by_cases h : ch = '2'
  · rw [if_pos h] at hk
    cases hk
    exact ⟨Or.inr rfl, Or.inr ⟨rfl, rfl⟩⟩
  rw [if_neg h] at hk
  clear h
  by_cases h : ch = '0'
  · rw [if_pos h] at hk
    cases hk
    exact ⟨Or.inl rfl, Or.inl rfl⟩
  rw [if_neg h] at hk
  clear h
  by_cases h : ch = '8'
  · rw [if_pos h] at hk
    cases hk
    exact ⟨Or.inl rfl, Or.inl rfl⟩
  rw [if_neg h] at hk
  clear h
  by_cases h : ch = '9'
  · rw [if_pos h] at hk
    cases hk
    exact ⟨Or.inl rfl, Or.inl rfl⟩
  rw [if_neg h] at hk
  clear h
  cases hk
  exact ⟨Or.inl rfl, Or.inl rfl⟩


section OrderedField

variable {α : Type} [LinearOrderedField α]

theorem rescale_mono {last now : Int} (h : last ≤ now) :
    (last : α) / 1.06 ≤ (now : α) / 1.06 := by
  have hpos : (0 : α) < 1.06 := by norm_num
  have hc : (last : α) ≤ (now : α) := by exact_mod_cast h
  exact div_le_div_of_nonneg_right hc hpos.le

theorem CursorInv.init : CursorInv 0 (initGlobals : Globals α) := by
  unfold CursorInv initGlobals
  simp

/-- The invariant survives `special`, which touches neither cursor nor
`t_offset`. -/
theorem CursorInv.special {last now : Int} {g : Globals α} (hinv : CursorInv last g)
    (h : last ≤ now) (k x y : Int) : CursorInv now (special k x y g) := by
  obtain ⟨h0, h1, h2⟩ := hinv
  have hmono := @rescale_mono α _ _ _ h
  have hi : (Hw1.special k x y g).a_index = g.a_index := by
    unfold Hw1.special
    simp only
    split_ifs <;> rfl
  have ho : (Hw1.special k x y g).t_offset = g.t_offset := by
    unfold Hw1.special
    simp only
    split_ifs <;> rfl
  unfold CursorInv
  rw [hi, ho]
  exact ⟨h0, h1, by linarith⟩

/-- The invariant survives every `key` command that does not exit. -/
theorem CursorInv.key {last now : Int} {g g' : Globals α} (hinv : CursorInv last g)
    (h : last ≤ now) (ch : Char) (x y : Int) (hk : key ch x y now g = some g') :
    CursorInv now g' := by
  obtain ⟨h0, h1, h2⟩ := hinv
  have hmono := @rescale_mono α _ _ _ h
  have hc0 : (0 : α) ≤ (g.a_index : α) := by exact_mod_cast h0
  obtain ⟨hi, ho⟩ := key_cursor_cases ch x y hk
  unfold CursorInv
  rcases ho with ho | ⟨hi0, ho⟩
  · rcases hi with hi | hi
    · rw [hi, ho]
      exact ⟨h0, h1, by linarith⟩
    · rw [hi, ho]
      exact ⟨le_refl _, by norm_num, by simp only [Int.cast_zero]; linarith⟩
  · rw [hi0, ho]
    exact ⟨le_refl _, by norm_num, by simp⟩

end OrderedField

section Ordered

variable {α : Type} [LinearOrderedField α] [FloorRing α]

theorem truncToInt_of_nonneg {tm : α} (h : 0 ≤ tm) : truncToInt tm = ⌊tm⌋ := by
  simp [truncToInt, h]

/-- After `idle` the cursor is at most 50000, from any state and at any time. -/
theorem idle_a_index_le (now : Int) (g : Globals α) :
    (idle now g).a_index ≤ 50000 := by
  unfold idle
  simp only
  split_ifs <;> simp_all

theorem idle_t_offset (now : Int) (g : Globals α) :
    (idle now g).t_offset = g.t_offset := by
  unfold idle
  simp only
  split_ifs <;> rfl

/-- The invariant survives `idle`, and `idle` does not move the cursor back. -/
theorem CursorInv.idle {last now : Int} {g : Globals α} (hinv : CursorInv last g)
    (h : last ≤ now) :
    CursorInv now (idle now g) ∧ g.a_index ≤ (idle now g).a_index := by
  obtain ⟨h0, h1, h2⟩ := hinv
  have hmono := @rescale_mono α _ _ _ h
  have htm : (g.a_index : α) ≤ (now : α) / 1.06 - g.t_offset := by linarith
  have htm0 : (0 : α) ≤ (now : α) / 1.06 - g.t_offset := by
    have : (0 : α) ≤ (g.a_index : α) := by exact_mod_cast h0
    linarith
  have hfloor : g.a_index ≤ truncToInt ((now : α) / 1.06 - g.t_offset) := by
    rw [truncToInt_of_nonneg htm0]
    exact Int.le_floor.mpr htm
  have hfloor_le : ((truncToInt ((now : α) / 1.06 - g.t_offset) : Int) : α)
      ≤ (now : α) / 1.06 - g.t_offset := by
    rw [truncToInt_of_nonneg htm0]
    exact Int.floor_le _
  unfold Hw1.idle CursorInv
  simp only
  by_cases hlt : g.a_index < 50000
  · rw [if_pos hlt]
    simp only
    by_cases hgt : truncToInt ((now : α) / 1.06 - g.t_offset) > 50000
    · rw [if_pos hgt]
      refine ⟨⟨by norm_num, le_refl _, ?_⟩, by simp only; omega⟩
      simp only
      have : ((50000 : Int) : α) ≤ (truncToInt ((now : α) / 1.06 - g.t_offset) : α) := by
        exact_mod_cast hgt.le
      linarith
    · rw [if_neg hgt]
      exact ⟨⟨by simp only; omega, by simp only; omega, hfloor_le⟩, hfloor⟩
  · rw [if_neg hlt, if_neg (by omega)]
    exact ⟨⟨h0, h1, htm⟩, le_refl _⟩

/-- The invariant holds at the end of every run whose clock never goes back;
the clock reading it holds for is one of the run or the starting one. -/
theorem CursorInv.run (es : List (Int × Event)) :
    ∀ (last : Int) (g g' : Globals α), CursorInv last g → ClockOk last es →
      run g es = some g' →
      ∃ last', CursorInv last' g' ∧ (last' = last ∨ last' ∈ es.map Prod.fst) := by
  induction es with
  | nil =>
    intro last g g' hinv _ hrun
    simp only [Hw1.run, Option.some.injEq] at hrun
    subst hrun
    exact ⟨last, hinv, Or.inl rfl⟩
  | cons e es ih =>
    intro last g g' hinv hclock hrun
    obtain ⟨now, ev⟩ := e
    simp only [ClockOk, List.map_cons, List.chain_cons] at hclock
    obtain ⟨hle, hrest⟩ := hclock
    simp only [Hw1.run] at hrun
    cases hstep : handle g now ev with
    | none => simp [hstep] at hrun
    | some g1 =>
      rw [hstep] at hrun
      simp only [Option.some_bind] at hrun
      have hinv1 : CursorInv now g1 := by
        cases ev with
        | key ch x y => exact hinv.key hle ch x y hstep
        | special k x y =>
          simp only [handle, Option.some.injEq] at hstep
          subst hstep
          exact hinv.special hle k x y
        | idle =>
          simp only [handle, Option.some.injEq] at hstep
          subst hstep
          exact (hinv.idle hle).1
      obtain ⟨last', hinv', hmem⟩ := ih now g1 g' hinv1 hrest hrun
      refine ⟨last', hinv', Or.inr ?_⟩
      rcases hmem with rfl | hmem
      · simp
      · simp only [List.map_cons, List.mem_cons]
        exact Or.inr hmem

end Ordered

/-! ## Properties of the animation cursor -/

/-- C4: in every state reached from the initial globals by key commands,
special keys and idle ticks whose clock readings are non-negative and
non-decreasing, the cursor satisfies `0 ≤ a_index ≤ 50000`; and a further tick
leaves the cursor at most 50000 whatever its clock reading is. -/
theorem cursor_within_bounds {α : Type} [LinearOrderedField α] [FloorRing α]
    (es : List (Int × Event)) (g : Globals α) (hclock : ClockOk 0 es)
    (hrun : run (initGlobals : Globals α) es = some g) :
    (0 ≤ g.a_index ∧ g.a_index ≤ 50000)
      ∧ ∀ now : Int, (idle now g).a_index ≤ 50000 := by
  obtain ⟨last, hinv, _⟩ := CursorInv.run es 0 initGlobals g CursorInv.init hclock hrun
  exact ⟨⟨hinv.1, hinv.2.1⟩, fun now => idle_a_index_le now g⟩

/-- Instance of C4: enter Animation mode, tick after one hundred seconds, then
change the colour frequency; the cursor has saturated at 50000. -/
theorem cursor_within_bounds_witness :
    (0 ≤ ({ (initGlobals : Globals ℚ) with
            a_mode := 1, a_index := 50000, color_frequency := 0.0099 }
          : Globals ℚ).a_index
      ∧ ({ (initGlobals : Globals ℚ) with
            a_mode := 1, a_index := 50000, color_frequency := 0.0099 }
          : Globals ℚ).a_index ≤ 50000)
    ∧ ∀ now : Int,
        (idle now ({ (initGlobals : Globals ℚ) with
            a_mode := 1, a_index := 50000, color_frequency := 0.0099 }
          : Globals ℚ)).a_index ≤ 50000 :=
  cursor_within_bounds
    [(0, .key '2' 0 0), (100000, .idle), (100001, .key 'z' 0 0)]
    { (initGlobals : Globals ℚ) with
      a_mode := 1, a_index := 50000, color_frequency := 0.0099 }
    (by simp [ClockOk])
    (by
      simp [run, handle, key, idle, truncToInt, initGlobals]
      norm_num)

/-- C5: in every state reached from the initial globals under a non-negative,
non-decreasing clock, a tick whose clock reading is not earlier than any
reading so far leaves the cursor greater than or equal to what it was. -/
theorem idle_cursor_monotone {α : Type} [LinearOrderedField α] [FloorRing α]
    (es : List (Int × Event)) (g : Globals α) (now : Int)
    (hclock : ClockOk 0 es) (hnow0 : 0 ≤ now) (hnow : ∀ e ∈ es, e.1 ≤ now)
    (hrun : run (initGlobals : Globals α) es = some g) :
    g.a_index ≤ (idle now g).a_index := by
  obtain ⟨last, hinv, hlast⟩ :=
    CursorInv.run es 0 initGlobals g CursorInv.init hclock hrun
  have hle : last ≤ now := by
    rcases hlast with rfl | hmem
    · exact hnow0
    · obtain ⟨e, he, rfl⟩ := List.mem_map.mp hmem
      exact hnow e he
  exact (hinv.idle hle).2

/-- Instance of C5: Animation mode entered at 500 ms, a tick at 2000 ms, then
a tick at 3000 ms. -/
theorem idle_cursor_monotone_witness :
    ({ (initGlobals : Globals ℚ) with
        a_mode := 1, a_index := 1415, t_offset := 500 / 1.06 } : Globals ℚ).a_index
      ≤ (idle 3000 ({ (initGlobals : Globals ℚ) with
        a_mode := 1, a_index := 1415, t_offset := 500 / 1.06 } : Globals ℚ)).a_index :=
  idle_cursor_monotone
    [(500, .key '2' 0 0), (2000, .idle)]
    { (initGlobals : Globals ℚ) with
      a_mode := 1, a_index := 1415, t_offset := 500 / 1.06 }
    3000
    (by simp [ClockOk]) (by decide) (by simp)
    (by
      simp [run, handle, key, idle, truncToInt, initGlobals]
      norm_num)

/-! ## The idle callback in Explorer mode -/

/-- C6, as stated, fails: in the initial state (Explorer mode) a tick at clock
reading 1060 moves the cursor from 0 to 1000, so the state changes. -/
theorem idle_explorer_changes_cursor :
    (initGlobals : Globals ℚ).a_mode = 0
      ∧ (idle 1060 (initGlobals : Globals ℚ)).a_index = 1000
      ∧ idle 1060 (initGlobals : Globals ℚ) ≠ initGlobals := by
  have hidx : (idle 1060 (initGlobals : Globals ℚ)).a_index = 1000 := by
    simp [idle, truncToInt, initGlobals]
    norm_num
  refine ⟨rfl, hidx, ?_⟩
  intro h
  rw [h] at hidx
  exact absurd hidx (by decide)

/-- C6, amended: in Explorer mode a tick changes no global other than the
cursor `a_index`, which becomes the smaller of 50000 and of the truncated
rescaled elapsed time (when it was below 50000) or of its old value
(otherwise); the point batch drawn by `display` is the same before and after
the tick. -/
theorem idle_explorer_frame {α : Type} [LinearOrderedField α] [FloorRing α]
    (sin : α → α) (now : Int) (g : Globals α) (hmode : g.a_mode = 0) :
    idle now g = { g with a_index := (idle now g).a_index }
      ∧ (idle now g).a_index
          = min 50000 (if g.a_index < 50000
              then truncToInt ((now : α) / 1.06 - g.t_offset) else g.a_index)
      ∧ display sin (idle now g) = display sin g := by
  have hshape : idle now g = { g with a_index := (idle now g).a_index } := by
    unfold idle
    simp only
    split_ifs <;> rfl
  refine ⟨hshape, ?_, ?_⟩
  · unfold idle
    simp only
    split_ifs <;> simp_all <;> omega
  · rw [hshape, display_eq_map, display_eq_map]
    have hp : pointsToRender { g with a_index := (idle now g).a_index }
        = pointsToRender g := by
      simp [pointsToRender, hmode]
    rw [hp]
    rfl

/-- Instance of the amended C6: the initial state and a tick at 1060 ms. -/
theorem idle_explorer_frame_witness :
    idle 1060 (initGlobals : Globals ℚ)
        = { (initGlobals : Globals ℚ) with
            a_index := (idle 1060 (initGlobals : Globals ℚ)).a_index }
      ∧ (idle 1060 (initGlobals : Globals ℚ)).a_index
          = min 50000 (if (initGlobals : Globals ℚ).a_index < 50000
              then truncToInt (((1060 : Int) : ℚ) / 1.06
                - (initGlobals : Globals ℚ).t_offset)
              else (initGlobals : Globals ℚ).a_index)
      ∧ display (fun _ => 0) (idle 1060 (initGlobals : Globals ℚ))
          = display (fun _ => 0) (initGlobals : Globals ℚ) :=
  idle_explorer_frame (fun _ => 0) 1060 initGlobals rfl

/-! ## Yaw rotation -/

theorem tmod_360_of_small (a : Int) (h1 : -360 < a) (h2 : a < 360) :
    a.tmod 360 = a := by
  cases a with
  | ofNat n =>
    exact Int.tmod_eq_of_lt (Int.ofNat_nonneg n) h2
  | negSucc n =>
    have hn : n + 1 < 360 := by
      have := Int.negSucc_eq n
      omega
    show -((((n + 1) % 360 : Nat)) : Int) = Int.negSucc n
    rw [Nat.mod_eq_of_lt hn, Int.negSucc_eq]
    rfl

theorem tmod_360_of_wrap (a : Int) (h1 : 360 ≤ a) (h2 : a < 720) :
    a.tmod 360 = a - 360 := by
  rw [Int.tmod_eq_emod (by omega) (by norm_num)]
  omega

theorem special_right_th {α : Type} (x y : Int) (g : Globals α) :
    (special GLUT_KEY_RIGHT x y g).th = (g.th + 5).tmod 360 := by
  simp [special]

theorem special_left_th {α : Type} (x y : Int) (g : Globals α) :
    (special GLUT_KEY_LEFT x y g).th = (g.th - 5).tmod 360 := by
  simp [special, GLUT_KEY_LEFT, GLUT_KEY_RIGHT]

/-- Pressing the right arrow `n` times from a non-negative yaw adds `5 * n`
to it as long as the sum stays below 360. -/
theorem run_right_presses {α : Type} [LinearOrderedField α] [FloorRing α]
    (t x y : Int) :
    ∀ (n : Nat) (g : Globals α), 0 ≤ g.th → g.th + 5 * (n : Int) < 360 →
      (run g (List.replicate n (t, Event.special GLUT_KEY_RIGHT x y))).map
          Globals.th = some (g.th + 5 * (n : Int)) := by
  intro n
  induction n with
  | zero =>
    intro g _ _
    simp [run]
  | succ n ih =>
    intro g h0 h1
    have hth : (special GLUT_KEY_RIGHT x y g).th = g.th + 5 := by
      rw [special_right_th]
      exact tmod_360_of_small _ (by omega) (by omega)
    rw [List.replicate_succ]
    simp only [run, handle, Option.some_bind]
    rw [ih (special GLUT_KEY_RIGHT x y g) (by omega) (by rw [hth]; omega), hth]
    congr 1
    push_cast
    ring

/-- C7, as stated, fails: yaw 355 is a multiple of 5 in `[-359, 359]`, it is
reached from the initial state by 71 presses of the right arrow, and right
arrow then left arrow turn it into `-5`. -/
theorem rotate_right_left_at_355 :
    (5 : Int) ∣ 355 ∧ (-359 : Int) ≤ 355 ∧ (355 : Int) ≤ 359
      ∧ (run (initGlobals : Globals ℚ)
          (List.replicate 71 (0, Event.special GLUT_KEY_RIGHT 0 0))).map
            Globals.th = some 355
      ∧ (special GLUT_KEY_LEFT 0 0 (special GLUT_KEY_RIGHT 0 0
          ({ (initGlobals : Globals ℚ) with th := 355 }))).th = -5
      ∧ (special GLUT_KEY_LEFT 0 0 (special GLUT_KEY_RIGHT 0 0
          ({ (initGlobals : Globals ℚ) with th := 355 }))).th
          ≠ ({ (initGlobals : Globals ℚ) with th := 355 } : Globals ℚ).th := by
  refine ⟨by decide, by decide, by decide, ?_, ?_, ?_⟩
  · exact run_right_presses 0 0 0 71 initGlobals (by decide) (by decide)
  · rw [special_left_th, special_right_th]
    decide
  · rw [special_left_th, special_right_th]
    decide

/-- C7, amended: for every yaw `th` in `[-359, 359]`, right arrow then left
arrow leave `th` unchanged when `th ≤ 354` and give `th - 360` when
`th ≥ 355`; in both cases the result is congruent to `th` modulo 360. -/
theorem rotate_right_left_yaw {α : Type} (g : Globals α) (x y x' y' : Int)
    (hlo : -359 ≤ g.th) (hhi : g.th ≤ 359) :
    (g.th ≤ 354 →
        (special GLUT_KEY_LEFT x' y' (special GLUT_KEY_RIGHT x y g)).th = g.th)
      ∧ (355 ≤ g.th →
        (special GLUT_KEY_LEFT x' y' (special GLUT_KEY_RIGHT x y g)).th
          = g.th - 360)
      ∧ (special GLUT_KEY_LEFT x' y' (special GLUT_KEY_RIGHT x y g)).th % 360
          = g.th % 360 := by
  rw [special_left_th, special_right_th]
  rcases le_or_lt g.th 354 with h | h
  · have e1 : (g.th + 5).tmod 360 = g.th + 5 :=
      tmod_360_of_small _ (by omega) (by omega)
    have e2 : (g.th + 5 - 5).tmod 360 = g.th + 5 - 5 :=
      tmod_360_of_small _ (by omega) (by omega)
    rw [e1, e2]
    refine ⟨fun _ => by omega, fun h' => by omega, by omega⟩
  · have e1 : (g.th + 5).tmod 360 = g.th + 5 - 360 :=
      tmod_360_of_wrap _ (by omega) (by omega)
    have e2 : (g.th + 5 - 360 - 5).tmod 360 = g.th + 5 - 360 - 5 :=
      tmod_360_of_small _ (by omega) (by omega)
    rw [e1, e2]
    refine ⟨fun h' => by omega, fun _ => by omega, by omega⟩

/-- Instance of the amended C7: yaw 350 stays 350. -/
theorem rotate_right_left_yaw_witness :
    (({ (initGlobals : Globals ℚ) with th := 350 } : Globals ℚ).th ≤ 354 →
        (special GLUT_KEY_LEFT 0 0 (special GLUT_KEY_RIGHT 0 0
          ({ (initGlobals : Globals ℚ) with th := 350 } : Globals ℚ))).th
          = ({ (initGlobals : Globals ℚ) with th := 350 } : Globals ℚ).th)
      ∧ (355 ≤ ({ (initGlobals : Globals ℚ) with th := 350 } : Globals ℚ).th →
        (special GLUT_KEY_LEFT 0 0 (special GLUT_KEY_RIGHT 0 0
          ({ (initGlobals : Globals ℚ) with th := 350 } : Globals ℚ))).th
          = ({ (initGlobals : Globals ℚ) with th := 350 } : Globals ℚ).th - 360)
      ∧ (special GLUT_KEY_LEFT 0 0 (special GLUT_KEY_RIGHT 0 0
          ({ (initGlobals : Globals ℚ) with th := 350 } : Globals ℚ))).th % 360
          = ({ (initGlobals : Globals ℚ) with th := 350 } : Globals ℚ).th % 360 :=
  rotate_right_left_yaw ({ (initGlobals : Globals ℚ) with th := 350 }) 0 0 0 0
    (by decide) (by decide)

/-! ## Parameter keys -/

/-- C9, as stated, fails: from the initial `b = 2.6666` the key `'w'` gives
`b = 2.9999`, which is not `b + 1/3`. -/
theorem key_w_not_one_third :
    (key 'w' 0 0 0 (initGlobals : Globals ℚ)).map Globals.b = some 2.9999
      ∧ (key 'w' 0 0 0 (initGlobals : Globals ℚ)).map Globals.b
          ≠ some ((initGlobals : Globals ℚ).b + 1 / 3) := by
  constructor
  · simp [key, initGlobals]
    norm_num
  · simp [key, initGlobals]
    norm_num

/-- C9, amended: for every value of `b`, the key `'w'` yields `b + 0.3333` and
the key `'s'` yields `b - 0.3333`, and both leave `s` and `r` (and every other
global) unchanged. -/
theorem key_w_s_change_b {α : Type} [Field α] (g : Globals α) (x y now : Int) :
    key 'w' x y now g = some { g with b := g.b + 0.3333 }
      ∧ key 's' x y now g = some { g with b := g.b - 0.3333 } := by
  constructor <;> simp [key]

/-- C10 on the code: from the initial colour frequency 0.01 the key `'z'`
gives 0.0099 and the key `'x'` gives 0.0101; in general `'z'` subtracts 0.0001
and `'x'` adds 0.0001, the opposite of the header table. -/
theorem key_z_decreases_x_increases :
    (key 'z' 0 0 0 (initGlobals : Globals ℚ)).map Globals.color_frequency
        = some 0.0099
      ∧ (key 'x' 0 0 0 (initGlobals : Globals ℚ)).map Globals.color_frequency
        = some 0.0101
      ∧ ∀ (g : Globals ℚ) (x y now : Int),
          key 'z' x y now g
              = some { g with color_frequency := g.color_frequency - 0.0001 }
            ∧ key 'x' x y now g
              = some { g with color_frequency := g.color_frequency + 0.0001 } := by
  refine ⟨?_, ?_, ?_⟩
  · simp [key, initGlobals]
    norm_num
  · simp [key, initGlobals]
    norm_num
  · intro g x y now
    constructor <;> simp [key]

/-! ## Bounds on the real sine at 2 and 4 -/

/-- Interval bounds for `sin` and `cos` at `2 * x` from bounds at `x`, for
`sin x` and `cos x` non-negative. -/
theorem sin_cos_double {x sl su cl cu : ℝ} (hsl : 0 ≤ sl) (hcl : 0 ≤ cl)
    (hs1 : sl ≤ Real.sin x) (hs2 : Real.sin x ≤ su)
    (hc1 : cl ≤ Real.cos x) (hc2 : Real.cos x ≤ cu) :
    2 * sl * cl ≤ Real.sin (2 * x) ∧ Real.sin (2 * x) ≤ 2 * su * cu
      ∧ 1 - 2 * su ^ 2 ≤ Real.cos (2 * x) ∧ Real.cos (2 * x) ≤ 1 - 2 * sl ^ 2 := by
  have hs0 : 0 ≤ Real.sin x := le_trans hsl hs1
  have hc0 : 0 ≤ Real.cos x := le_trans hcl hc1
  have hcos : Real.cos (2 * x) = 1 - 2 * Real.sin x ^ 2 := by
    rw [Real.cos_two_mul, Real.cos_sq']
    ring
  rw [Real.sin_two_mul, hcos]
  have p1 : sl * cl ≤ Real.sin x * Real.cos x := mul_le_mul hs1 hc1 hcl hs0
  have p2 : Real.sin x * Real.cos x ≤ su * cu :=
    mul_le_mul hs2 hc2 hc0 (le_trans hs0 hs2)
  have q1 : sl ^ 2 ≤ Real.sin x ^ 2 := pow_le_pow_left₀ hsl hs1 2
  have q2 : Real.sin x ^ 2 ≤ su ^ 2 := pow_le_pow_left₀ hs0 hs2 2
  refine ⟨by linarith, by linarith, by linarith, by linarith⟩

/-- Taylor bounds at `1/16`; the lemmas after it double the angle up to 2. -/
theorem sin_cos_sixteenth :
    (0.0624585 : ℝ) ≤ Real.sin (1 / 16) ∧ Real.sin (1 / 16) ≤ 0.0624602
      ∧ (0.998046 : ℝ) ≤ Real.cos (1 / 16) ∧ Real.cos (1 / 16) ≤ 0.9980477 := by
  have hx : |(1 / 16 : ℝ)| ≤ 1 := by
    rw [abs_of_nonneg (by norm_num)]
    norm_num
  have hs := abs_le.mp (Real.sin_bound hx)
  have hc := abs_le.mp (Real.cos_bound hx)
  rw [abs_of_nonneg (by norm_num : (0 : ℝ) ≤ 1 / 16)] at hs hc
  obtain ⟨hs1, hs2⟩ := hs
  obtain ⟨hc1, hc2⟩ := hc
  norm_num at hs1 hs2 hc1 hc2
  refine ⟨?_, ?_, ?_, ?_⟩ <;> norm_num <;> linarith

theorem sin_cos_eighth :
    (0.1246729 : ℝ) ≤ Real.sin (1 / 8) ∧ Real.sin (1 / 8) ≤ 0.1246766
      ∧ (0.9921974 : ℝ) ≤ Real.cos (1 / 8) ∧ Real.cos (1 / 8) ≤ 0.9921979 := by
  obtain ⟨a, b, c, d⟩ := sin_cos_sixteenth
  have h := sin_cos_double (by norm_num) (by norm_num) a b c d
  rw [show (2 : ℝ) * (1 / 16) = (1 / 8) by norm_num] at h
  obtain ⟨h1, h2, h3, h4⟩ := h
  norm_num at h1 h2 h3 h4
  refine ⟨?_, ?_, ?_, ?_⟩ <;> norm_num <;> linarith

theorem sin_cos_quarter :
    (0.2474002 : ℝ) ≤ Real.sin (1 / 4) ∧ Real.sin (1 / 4) ≤ 0.2474078
      ∧ (0.9689114 : ℝ) ≤ Real.cos (1 / 4) ∧ Real.cos (1 / 4) ≤ 0.9689134 := by
  obtain ⟨a, b, c, d⟩ := sin_cos_eighth
  have h := sin_cos_double (by norm_num) (by norm_num) a b c d
  rw [show (2 : ℝ) * (1 / 8) = (1 / 4) by norm_num] at h
  obtain ⟨h1, h2, h3, h4⟩ := h
  norm_num at h1 h2 h3 h4
  refine ⟨?_, ?_, ?_, ?_⟩ <;> norm_num <;> linarith

theorem sin_cos_half :
    (0.4794177 : ℝ) ≤ Real.sin (1 / 2) ∧ Real.sin (1 / 2) ≤ 0.4794335
      ∧ (0.8775787 : ℝ) ≤ Real.cos (1 / 2) ∧ Real.cos (1 / 2) ≤ 0.8775863 := by
  obtain ⟨a, b, c, d⟩ := sin_cos_quarter
  have h := sin_cos_double (by norm_num) (by norm_num) a b c d
  rw [show (2 : ℝ) * (1 / 4) = (1 / 2) by norm_num] at h
  obtain ⟨h1, h2, h3, h4⟩ := h
  norm_num at h1 h2 h3 h4
  refine ⟨?_, ?_, ?_, ?_⟩ <;> norm_num <;> linarith

theorem sin_cos_one :
    (0.8414535 : ℝ) ≤ Real.sin 1 ∧ Real.sin 1 ≤ 0.8414886
      ∧ (0.540287 : ℝ) ≤ Real.cos 1 ∧ Real.cos 1 ≤ 0.5403174 := by
  obtain ⟨a, b, c, d⟩ := sin_cos_half
  have h := sin_cos_double (by norm_num) (by norm_num) a b c d
  rw [show (2 : ℝ) * (1 / 2) = 1 by norm_num] at h
  obtain ⟨h1, h2, h3, h4⟩ := h
  norm_num at h1 h2 h3 h4
  refine ⟨?_, ?_, ?_, ?_⟩ <;> norm_num <;> linarith

theorem sin_cos_two :
    (0.9092527 : ℝ) ≤ Real.sin 2 ∧ Real.sin 2 ≤ 0.9093419
      ∧ (-0.4162062 : ℝ) ≤ Real.cos 2 ∧ Real.cos 2 ≤ -0.4160879 := by
  obtain ⟨a, b, c, d⟩ := sin_cos_one
  have h := sin_cos_double (by norm_num) (by norm_num) a b c d
  rw [show (2 : ℝ) * 1 = 2 by norm_num] at h
  obtain ⟨h1, h2, h3, h4⟩ := h
  norm_num at h1 h2 h3 h4
  refine ⟨?_, ?_, ?_, ?_⟩ <;> norm_num <;> linarith

theorem sin_four_bounds :
    (-0.7569475 : ℝ) ≤ Real.sin 4 ∧ Real.sin 4 ≤ -0.756658 := by
  obtain ⟨a, b, c, d⟩ := sin_cos_two
  have h4 : Real.sin 4 = 2 * (Real.sin 2 * Real.cos 2) := by
    rw [show (4 : ℝ) = 2 * 2 by norm_num, Real.sin_two_mul]
    ring
  have hs0 : 0 ≤ Real.sin 2 := le_trans (by norm_num) a
  have hc0 : Real.cos 2 ≤ 0 := le_trans d (by norm_num)
  have p1 : Real.sin 2 * (-0.4162062 : ℝ) ≤ Real.sin 2 * Real.cos 2 :=
    mul_le_mul_of_nonneg_left c hs0
  have p2 : (0.9093419 : ℝ) * (-0.4162062) ≤ Real.sin 2 * (-0.4162062) :=
    mul_le_mul_of_nonpos_right b (by norm_num)
  have p3 : Real.sin 2 * Real.cos 2 ≤ Real.sin 2 * (-0.4160879 : ℝ) :=
    mul_le_mul_of_nonneg_left d hs0
  have p4 : Real.sin 2 * (-0.4160879 : ℝ) ≤ (0.9092527) * (-0.4160879) :=
    mul_le_mul_of_nonpos_right a (by norm_num)
  norm_num at p1 p2 p3 p4
  rw [h4]
  constructor <;> linarith

theorem sin_two_bounds :
    (0.9092527 : ℝ) ≤ Real.sin 2 ∧ Real.sin 2 ≤ 0.9093419 :=
  ⟨sin_cos_two.1, sin_cos_two.2.1⟩

/-! ## The first colour of the palette -/

theorem roundDec_of_mem (d : Nat) (x : ℝ) (n : Int)
    (h1 : (n : ℝ) - 1 / 2 ≤ x * 10 ^ d) (h2 : x * 10 ^ d < (n : ℝ) + 1 / 2) :
    roundDec d x = (n : ℝ) / 10 ^ d := by
  unfold roundDec
  have hr : round (x * 10 ^ d) = n := by
    rw [round_eq, Int.floor_eq_iff]
    constructor <;> linarith
  rw [hr]

theorem roundDec_red : roundDec 3 ((Real.sin 2 * 127 + 128) / 255) = 0.955 := by
  obtain ⟨h1, h2⟩ := sin_two_bounds
  rw [roundDec_of_mem 3 _ 955 (by norm_num; linarith) (by norm_num; linarith)]
  norm_num

theorem roundDec_green : roundDec 3 ((Real.sin 4 * 127 + 128) / 255) = 0.125 := by
  obtain ⟨h1, h2⟩ := sin_four_bounds
  rw [roundDec_of_mem 3 _ 125 (by norm_num; linarith) (by norm_num; linarith)]
  norm_num

theorem roundDec_blue : roundDec 5 ((Real.sin 0 * 127 + 128) / 255) = 0.50196 := by
  rw [Real.sin_zero,
    roundDec_of_mem 5 _ 50196 (by norm_num) (by norm_num)]
  norm_num

/-- The colour of the first vertex `display` draws: the palette at `i = 0`,
which does not depend on the colour frequency. -/
theorem display_first_colour {α : Type} [Field α] (sin : α → α) (g : Globals α)
    (hcount : 0 < pointsToRender g) :
    ((display sin g)[0]?).map Vertex.col
      = some ((sin 2 * 127 + 128) / 255, (sin 4 * 127 + 128) / 255,
          (sin 0 * 127 + 128) / 255) := by
  have hlt : 0 < (pointsToRender g).toNat := by omega
  rw [display_eq_map, List.getElem?_map, List.getElem?_range hlt]
  simp [trajectoryPoint, paletteColour]

/-- C8, as stated, fails: over the reals the red and green components of the
first colour (step 0, colour frequency 0.01) do not round to 0.860 and
0.121. -/
theorem first_colour_not_as_quoted :
    (initGlobals : Globals ℝ).color_frequency = 0.01
      ∧ ((display Real.sin (initGlobals : Globals ℝ))[0]?).map Vertex.col
          = some ((Real.sin 2 * 127 + 128) / 255, (Real.sin 4 * 127 + 128) / 255,
              (Real.sin 0 * 127 + 128) / 255)
      ∧ roundDec 3 ((Real.sin 2 * 127 + 128) / 255) ≠ 0.860
      ∧ roundDec 3 ((Real.sin 4 * 127 + 128) / 255) ≠ 0.121 := by
  refine ⟨by norm_num [initGlobals], ?_, ?_, ?_⟩
  · exact display_first_colour Real.sin initGlobals (by simp [pointsToRender, initGlobals])
  · rw [roundDec_red]
    norm_num
  · rw [roundDec_green]
    norm_num

/-- C8, amended: for step index 0, at colour frequency 0.01 as at any other,
the colour `display` uses is, over the reals, red `(sin 2 * 127 + 128)/255`,
green `(sin 4 * 127 + 128)/255` and blue `(sin 0 * 127 + 128)/255`, and these
values round to 0.955, 0.125 and 0.50196 at three, three and five decimal
places. -/
theorem first_colour_rounded (g : Globals ℝ) (hcount : 0 < pointsToRender g) :
    ((display Real.sin g)[0]?).map Vertex.col
        = some ((Real.sin 2 * 127 + 128) / 255, (Real.sin 4 * 127 + 128) / 255,
            (Real.sin 0 * 127 + 128) / 255)
      ∧ roundDec 3 ((Real.sin 2 * 127 + 128) / 255) = 0.955
      ∧ roundDec 3 ((Real.sin 4 * 127 + 128) / 255) = 0.125
      ∧ roundDec 5 ((Real.sin 0 * 127 + 128) / 255) = 0.50196 :=
  ⟨display_first_colour Real.sin g hcount, roundDec_red, roundDec_green,
    roundDec_blue⟩

/-- Instance of the amended C8: the initial globals, whose colour frequency
is 0.01. -/
theorem first_colour_rounded_witness :
    (initGlobals : Globals ℝ).color_frequency = 0.01
      ∧ ((display Real.sin (initGlobals : Globals ℝ))[0]?).map Vertex.col
          = some ((Real.sin 2 * 127 + 128) / 255, (Real.sin 4 * 127 + 128) / 255,
              (Real.sin 0 * 127 + 128) / 255)
      ∧ roundDec 3 ((Real.sin 2 * 127 + 128) / 255) = 0.955
      ∧ roundDec 3 ((Real.sin 4 * 127 + 128) / 255) = 0.125
      ∧ roundDec 5 ((Real.sin 0 * 127 + 128) / 255) = 0.50196 :=
  ⟨by norm_num [initGlobals],
    first_colour_rounded initGlobals (by simp [pointsToRender, initGlobals])⟩

end Hw1
